import Mathlib

set_option maxRecDepth 10000

/-!
Shallow embedding of the competitive-intelligence and strategy-classifier
module (`src/utils/graphql.ts`) together with the address-category lookup it
uses (`src/utils/contracts.ts`).  JavaScript `Record<string, T>` values are
embedded as association lists in object-insertion order (the order
`Object.entries` iterates), `string | undefined | null` as `Option String`
(`none` models `undefined`/`null`), and JavaScript `bigint` as `Int`.
-/

/-- Truthiness of a JavaScript string-or-nullish value: `undefined`, `null`
and the empty string are falsy, every other string is truthy. -/
def jsTruthy : Option String → Bool
  | none => false
  | some s => !(s == "")

/-- Property lookup on a JavaScript object embedded as an association list
with distinct keys (first match). -/
def jsLookup : List (String × α) → String → Option α
  | [], _ => none
  | e :: rest, k => if e.1 = k then some e.2 else jsLookup rest k

/-- Models `String.prototype.toLowerCase` on the ASCII addresses used here. -/
def jsToLower (s : String) : String := s.map Char.toLower

/-- Decimal digit test by code point (48–57), as the ECMAScript grammar uses. -/
def isDecDigit (c : Char) : Bool := 48 ≤ c.toNat && c.toNat ≤ 57

/-- Whitespace stripped by `StringToBigInt` (ECMAScript WhiteSpace and
LineTerminator code points, given here numerically: TAB LF VT FF CR SP NBSP
OGHAM, U+2000–U+200A, LS PS NNBSP MMSP IDSP ZWNBSP). -/
def isJsWhitespace (c : Char) : Bool :=
  c.toNat == 32 || c.toNat == 9 || c.toNat == 10 || c.toNat == 13 ||
  c.toNat == 11 || c.toNat == 12 || c.toNat == 160 || c.toNat == 5760 ||
  (8192 ≤ c.toNat && c.toNat ≤ 8202) || c.toNat == 8232 || c.toNat == 8233 ||
  c.toNat == 8239 || c.toNat == 8287 || c.toNat == 12288 || c.toNat == 65279

/-- Strip leading and trailing JavaScript whitespace. -/
def trimJsWs (cs : List Char) : List Char :=
  ((cs.dropWhile isJsWhitespace).reverse.dropWhile isJsWhitespace).reverse

/-- Lowercase hex digit test by code point (97–102). -/
def isLowerHexDigit (c : Char) : Bool := 97 ≤ c.toNat && c.toNat ≤ 102

/-- Uppercase hex digit test by code point (65–70). -/
def isUpperHexDigit (c : Char) : Bool := 65 ≤ c.toNat && c.toNat ≤ 70

/-- Value of a digit character in the given radix, if it is one. -/
def digitVal? (radix : Nat) (c : Char) : Option Nat :=
  if isDecDigit c then
    (if c.toNat - 48 < radix then some (c.toNat - 48) else none)
  else if isLowerHexDigit c then
    (if c.toNat - 87 < radix then some (c.toNat - 87) else none)
  else if isUpperHexDigit c then
    (if c.toNat - 55 < radix then some (c.toNat - 55) else none)
  else none

/-- Accumulate a digit string into a natural number; fails on a non-digit. -/
def digitsToNat (radix : Nat) : Nat → List Char → Option Nat
  | acc, [] => some acc
  | acc, c :: cs =>
    match digitVal? radix c with
    | some d => digitsToNat radix (acc * radix + d) cs
    | none => none

/-- Parse a non-empty digit string in the given radix. -/
def parseDigits (radix : Nat) (cs : List Char) : Option Nat :=
  match cs with
  | [] => none
  | _ :: _ => digitsToNat radix 0 cs

/-- The trimmed body of `StringToBigInt`: accept the empty remainder as `0`,
an optional sign followed by decimal digits, or an unsigned `0x`/`0o`/`0b`
radix literal; anything else is a parse failure. -/
def strToBigIntTrimmed : List Char → Option Int
  | [] => some 0
  | c :: rest =>
    if c = '+' then (parseDigits 10 rest).map (fun n => (n : Int))
    else if c = '-' then (parseDigits 10 rest).map (fun n => -(n : Int))
    else if c = '0' then
      match rest with
      | [] => some 0
      | r :: rest2 =>
        if r = 'x' ∨ r = 'X' then (parseDigits 16 rest2).map (fun n => (n : Int))
        else if r = 'o' ∨ r = 'O' then (parseDigits 8 rest2).map (fun n => (n : Int))
        else if r = 'b' ∨ r = 'B' then (parseDigits 2 rest2).map (fun n => (n : Int))
        else (parseDigits 10 (c :: rest)).map (fun n => (n : Int))
    else (parseDigits 10 (c :: rest)).map (fun n => (n : Int))

/-- Models the JavaScript builtin `BigInt(string)` (the `StringToBigInt`
operation): trim whitespace, then parse with `strToBigIntTrimmed`; a failure
models the thrown `SyntaxError`. -/
def jsStrToBigInt (s : String) : Option Int :=
  strToBigIntTrimmed (trimJsWs s.data)

/-- Embedding of `safeBigIntConversion` (graphql.ts lines 114–123): a falsy
argument (`undefined`, `null`, `""`) returns the default, otherwise
`BigInt(value)` is attempted and a parse failure (the caught exception)
returns the default. -/
def safeBigIntConversion (value : Option String) (defaultValue : Int) : Int :=
  match value with
  | none => defaultValue
  | some s =>
    if s = "" then defaultValue
    else
      match jsStrToBigInt s with
      | some n => n
      | none => defaultValue

/-- Stable insertion into a list already sorted descending by `key`: the new
element goes before the first element whose key it is at least equal to.
Folding this over a list from the right is a stable sort, which is the
behaviour ECMAScript specifies for `Array.prototype.sort` with a consistent
comparator; the classifiers sort with `(a, b) => a > b ? -1 : a < b ? 1 : 0`,
i.e. descending with ties kept in original order. -/
def insDesc (key : α → Int) (x : α) : List α → List α
  | [] => [x]
  | y :: ys => if key y ≤ key x then x :: y :: ys else y :: insDesc key x ys

/-- Stable descending sort by `key` (see `insDesc`). -/
def sortByDesc (key : α → Int) : List α → List α
  | [] => []
  | x :: xs => insDesc key x (sortByDesc key xs)

/-- The two contract categories the classifiers consult. -/
inductive ContractCategory
  | lpPairs
  | reactors
deriving DecidableEq

/-- Modelled from the spec: the static address-category configuration
(`contracts.json`, not among the sources) mapping each category to a record
of token-type names to contract addresses.  Only the two categories the
classifiers consult are modelled; the classifiers are stated for an arbitrary
table. -/
structure ContractsTable where
  lpPairs : List (String × String)
  reactors : List (String × String)

/-- Select a category's address record. -/
def ContractsTable.category : ContractsTable → ContractCategory → List (String × String)
  | t, .lpPairs => t.lpPairs
  | t, .reactors => t.reactors

/-- Embedding of `isAddressOfType` (contracts.ts lines 67–91) for the calls the
classifiers make, which always pass a `tokenType`: look the token type up in
the category's record; a missing or empty address is falsy, otherwise compare
the lowercased addresses. -/
def isAddressOfType (tbl : ContractsTable) (address : String)
    (category : ContractCategory) (tokenType : String) : Bool :=
  match jsLookup (tbl.category category) tokenType with
  | none => false
  | some tokenAddress =>
    !(tokenAddress == "") && (jsToLower address == jsToLower tokenAddress)

/-- A liquidity position; the classifiers consult only `pairAddress`, so the
other fields of the source interface (liquidity, deposits, withdrawals, usd
value, apy, pair) are omitted as they never influence any classification. -/
structure LiquidityPosition where
  pairAddress : String

/-- A stake position; the classifiers consult only `reactorAddress`. -/
structure StakePosition where
  reactorAddress : String

/-- Models `s.charAt(0).toUpperCase() + s.slice(1)` on the ASCII resource
names it is applied to. -/
def capFirst (s : String) : String :=
  match s.data with
  | [] => ""
  | c :: cs => String.mk (c.toUpper :: cs)

/-- Models the JavaScript comparison `v > 0n` where `v` may be `undefined`
(property absent): comparison with `undefined` is false. -/
def jsGtZero : Option Int → Bool
  | none => false
  | some v => decide (0 < v)

/-- The non-Error balances converted to big integers, keyed by resource
(graphql.ts lines 133–138). -/
def balancesOf (entries : List (String × String)) : List (String × Int) :=
  (entries.filter (fun e => !(e.2 == "Error"))).map
    (fun e => (e.1, safeBigIntConversion (some e.2) 0))

/-- Embedding of `analyzeResourceFocus` (graphql.ts lines 130–171).  `none`
models a nullish argument, on which `Object.entries` throws and the
surrounding catch returns "Analysis Error"; the two-element `includes` checks
are written as disjunctions. -/
def analyzeResourceFocus (resourceBalances : Option (List (String × String))) : String :=
  match resourceBalances with
  | none => "Analysis Error"
  | some entries =>
    let balances := balancesOf entries
    let sortedResources := (sortByDesc (fun p => p.2) balances).map (fun p => p.1)
    match sortedResources with
    | [] => "Unknown"
    | topResource :: _ =>
      if topResource = "helium3" ∧ jsGtZero (jsLookup balances "helium3") = true then
        "He3 Accumulation"
      else if topResource = "graphene" ∨ topResource = "yttrium" then
        capFirst topResource ++ " Path Focus"
      else if topResource = "carbon" ∨ topResource = "neodymium" then
        capFirst topResource ++ " Stockpiling"
      else "Balanced Resource Approach"

/-- Resource set of the Graphene path (graphql.ts line 187). -/
def graphenePathResources : List String := ["carbon", "graphite", "graphene"]

/-- Resource set of the Yttrium path (graphql.ts line 188). -/
def yttriumPathResources : List String := ["neodymium", "dysprosium", "yttrium"]

/-- The pair-address test of graphql.ts lines 215–219. -/
def isGraphenePair (tbl : ContractsTable) (pairAddress : String) : Bool :=
  isAddressOfType tbl pairAddress .lpPairs "carbon" ||
  isAddressOfType tbl pairAddress .lpPairs "graphite" ||
  isAddressOfType tbl pairAddress .lpPairs "graphene"

/-- The pair-address test of graphql.ts lines 224–228. -/
def isYttriumPair (tbl : ContractsTable) (pairAddress : String) : Bool :=
  isAddressOfType tbl pairAddress .lpPairs "neodymium" ||
  isAddressOfType tbl pairAddress .lpPairs "dysprosium" ||
  isAddressOfType tbl pairAddress .lpPairs "yttrium"

/-- The reactor-address test of graphql.ts lines 239–242. -/
def isGrapheneReactor (tbl : ContractsTable) (reactorAddress : String) : Bool :=
  isAddressOfType tbl reactorAddress .reactors "grp" ||
  isAddressOfType tbl reactorAddress .reactors "gph"

/-- The reactor-address test of graphql.ts lines 247–250. -/
def isYttriumReactor (tbl : ContractsTable) (reactorAddress : String) : Bool :=
  isAddressOfType tbl reactorAddress .reactors "dy" ||
  isAddressOfType tbl reactorAddress .reactors "y"

/-- One iteration of the balance loop of `analyzePathPreference` (graphql.ts
lines 194–207), threading the pair (graphene score, yttrium score). -/
def pathResourceStep (sc : Nat × Nat) (e : String × String) : Nat × Nat :=
  if e.2 = "Error" then sc
  else if safeBigIntConversion (some e.2) 0 = 0 then sc
  else
    ((if graphenePathResources.contains e.1 then sc.1 + 1 else sc.1),
     (if yttriumPathResources.contains e.1 then sc.2 + 1 else sc.2))

/-- One iteration of the liquidity loop of `analyzePathPreference` (graphql.ts
lines 211–231). -/
def pathLiquidityStep (tbl : ContractsTable) (sc : Nat × Nat) (position : LiquidityPosition) : Nat × Nat :=
  ((if isGraphenePair tbl position.pairAddress then sc.1 + 2 else sc.1),
   (if isYttriumPair tbl position.pairAddress then sc.2 + 2 else sc.2))

/-- One iteration of the stake loop of `analyzePathPreference` (graphql.ts
lines 235–253). -/
def pathStakeStep (tbl : ContractsTable) (sc : Nat × Nat) (stake : StakePosition) : Nat × Nat :=
  ((if isGrapheneReactor tbl stake.reactorAddress then sc.1 + 3 else sc.1),
   (if isYttriumReactor tbl stake.reactorAddress then sc.2 + 3 else sc.2))

/-- Embedding of `analyzePathPreference` (graphql.ts lines 180–271).  The
`liquidityPositions?.liquidityPosition || []` and `stakePositions?.userStake
|| []` accesses are modelled by `Option.getD`; a nullish `resourceBalances`
makes `Object.entries` throw, caught as "Analysis Error". -/
def analyzePathPreference (tbl : ContractsTable)
    (resourceBalances : Option (List (String × String)))
    (liquidityPositions : Option (List LiquidityPosition))
    (stakePositions : Option (List StakePosition)) : String :=
  match resourceBalances with
  | none => "Analysis Error"
  | some entries =>
    let scR := entries.foldl pathResourceStep (0, 0)
    let scL := (liquidityPositions.getD []).foldl (pathLiquidityStep tbl) scR
    let scS := (stakePositions.getD []).foldl (pathStakeStep tbl) scL
    let graphenePathScore := scS.1
    let yttriumPathScore := scS.2
    if graphenePathScore > yttriumPathScore * 2 then "Strong Graphene Path Preference"
    else if graphenePathScore > yttriumPathScore then "Moderate Graphene Path Preference"
    else if yttriumPathScore > graphenePathScore * 2 then "Strong Yttrium Path Preference"
    else if yttriumPathScore > graphenePathScore then "Moderate Yttrium Path Preference"
    else "Balanced Path Approach"

/-- The base-tier pair test of graphql.ts lines 295–298. -/
def isBasePair (tbl : ContractsTable) (pairAddress : String) : Bool :=
  isAddressOfType tbl pairAddress .lpPairs "carbon" ||
  isAddressOfType tbl pairAddress .lpPairs "neodymium"

/-- The intermediate-tier pair test of graphql.ts lines 302–305. -/
def isIntermediatePair (tbl : ContractsTable) (pairAddress : String) : Bool :=
  isAddressOfType tbl pairAddress .lpPairs "graphite" ||
  isAddressOfType tbl pairAddress .lpPairs "dysprosium"

/-- The advanced-tier pair test of graphql.ts lines 309–313. -/
def isAdvancedPair (tbl : ContractsTable) (pairAddress : String) : Bool :=
  isAddressOfType tbl pairAddress .lpPairs "graphene" ||
  isAddressOfType tbl pairAddress .lpPairs "yttrium" ||
  isAddressOfType tbl pairAddress .lpPairs "helium3"

/-- One iteration of the counting loop of `analyzeLiquidityStrategy`
(graphql.ts lines 291–316), threading (base, intermediate, advanced). -/
def liquidityCountStep (tbl : ContractsTable) (c : Nat × Nat × Nat)
    (position : LiquidityPosition) : Nat × Nat × Nat :=
  if isBasePair tbl position.pairAddress then (c.1 + 1, c.2.1, c.2.2)
  else if isIntermediatePair tbl position.pairAddress then (c.1, c.2.1 + 1, c.2.2)
  else if isAdvancedPair tbl position.pairAddress then (c.1, c.2.1, c.2.2 + 1)
  else c

/-- Embedding of `analyzeLiquidityStrategy` (graphql.ts lines 278–332). -/
def analyzeLiquidityStrategy (tbl : ContractsTable)
    (liquidityPositions : Option (List LiquidityPosition)) : String :=
  let positions := liquidityPositions.getD []
  if positions.length = 0 then "No Liquidity Positions"
  else
    let c := positions.foldl (liquidityCountStep tbl) (0, 0, 0)
    if c.2.2 > c.2.1 ∧ c.2.2 > c.1 then "Advanced Resource Liquidity Focus"
    else if c.2.1 > c.1 then "Intermediate Resource Liquidity Focus"
    else if c.1 > 0 then "Base Resource Liquidity Focus"
    else "Diversified Liquidity Strategy"

/-- The base-tier reactor test of graphql.ts lines 357–360. -/
def isBaseReactor (tbl : ContractsTable) (reactorAddress : String) : Bool :=
  isAddressOfType tbl reactorAddress .reactors "grp" ||
  isAddressOfType tbl reactorAddress .reactors "dy"

/-- The intermediate-tier reactor test of graphql.ts lines 364–367. -/
def isIntermediateReactor (tbl : ContractsTable) (reactorAddress : String) : Bool :=
  isAddressOfType tbl reactorAddress .reactors "gph" ||
  isAddressOfType tbl reactorAddress .reactors "y"

/-- One iteration of the counting loop of `analyzeStakingStrategy` (graphql.ts
lines 353–383), threading (base, intermediate, advanced, he3 single stake). -/
def stakeCountStep (tbl : ContractsTable) (c : Nat × Nat × Nat × Nat)
    (stake : StakePosition) : Nat × Nat × Nat × Nat :=
  if isBaseReactor tbl stake.reactorAddress then (c.1 + 1, c.2.1, c.2.2.1, c.2.2.2)
  else if isIntermediateReactor tbl stake.reactorAddress then (c.1, c.2.1 + 1, c.2.2.1, c.2.2.2)
  else if isAddressOfType tbl stake.reactorAddress .reactors "he3" &&
          !isAddressOfType tbl stake.reactorAddress .reactors "he3Stake" then
    (c.1, c.2.1, c.2.2.1 + 1, c.2.2.2)
  else if isAddressOfType tbl stake.reactorAddress .reactors "he3Stake" then
    (c.1, c.2.1, c.2.2.1, c.2.2.2 + 1)
  else c

/-- Embedding of `analyzeStakingStrategy` (graphql.ts lines 339–401). -/
def analyzeStakingStrategy (tbl : ContractsTable)
    (stakePositions : Option (List StakePosition)) : String :=
  let stakes := stakePositions.getD []
  if stakes.length = 0 then "No Staking Positions"
  else
    let c := stakes.foldl (stakeCountStep tbl) (0, 0, 0, 0)
    if c.2.2.2 > 0 then "He3 Single Stake Focus"
    else if c.2.2.1 > c.2.1 ∧ c.2.2.1 > c.1 then "Advanced Resource Staking Focus"
    else if c.2.1 > c.1 then "Intermediate Resource Staking Focus"
    else if c.1 > 0 then "Base Resource Staking Focus"
    else "Diversified Staking Strategy"

/-- Embedding of `determineOverallStrategy` (graphql.ts lines 411–459).  The
two thresholds are the source literals.  The He3-balance checks run before
`resourceBalances` is touched, so a nullish `resourceBalances` (which throws
on property access, caught as "Analysis Error") still classifies the end-game
and late-game stages.  `stakePositions` is accepted and ignored as in the
source. -/
def determineOverallStrategy (resourceBalances : Option (List (String × String)))
    (liquidityPositions : Option (List LiquidityPosition))
    (stakePositions : Option (List StakePosition))
    (he3Balance : String) : String :=
  let he3BalanceValue := safeBigIntConversion (some he3Balance) 0
  if he3BalanceValue > 800000000000000000000000 then "End Game - Final He3 Accumulation"
  else if he3BalanceValue > 500000000000000000000000 then "Late Game - He3 Acceleration"
  else
    match resourceBalances with
    | none => "Analysis Error"
    | some entries =>
      let hasGraphene := jsTruthy (jsLookup entries "graphene") &&
        decide (0 < safeBigIntConversion (jsLookup entries "graphene") 0)
      let hasYttrium := jsTruthy (jsLookup entries "yttrium") &&
        decide (0 < safeBigIntConversion (jsLookup entries "yttrium") 0)
      if hasGraphene && hasYttrium then "Mid Game - Dual Path Production"
      else if hasGraphene then "Mid Game - Graphene Path Focus"
      else if hasYttrium then "Mid Game - Yttrium Path Focus"
      else if (liquidityPositions.getD []).length > 0 then "Early Game - Resource Conversion Setup"
      else "Early Game - Resource Accumulation"

/-- Character-list version of `String.prototype.startsWith`. -/
def charsStarts : List Char → List Char → Bool
  | [], _ => true
  | _ :: _, [] => false
  | p :: ps, h :: hs => p == h && charsStarts ps hs

/-- Character-list version of substring containment. -/
def charsContains (pat : List Char) : List Char → Bool
  | [] => pat.isEmpty
  | h :: hs => charsStarts pat (h :: hs) || charsContains pat hs

/-- Models `String.prototype.includes`. -/
def jsIncludes (s pat : String) : Bool := charsContains pat.data s.data

/-- Embedding of `suggestCounterStrategies` (graphql.ts lines 469–525); the
`strategies.push` sequence is the list in push order. -/
def suggestCounterStrategies (tbl : ContractsTable)
    (resourceBalances : Option (List (String × String)))
    (liquidityPositions : Option (List LiquidityPosition))
    (stakePositions : Option (List StakePosition))
    (he3Balance : String) : List String :=
  let he3BalanceValue := safeBigIntConversion (some he3Balance) 0
  if he3BalanceValue > 800000000000000000000000 then
    ["Accelerate He3 production to catch up", "Focus exclusively on He3 single staking"]
  else if he3BalanceValue > 500000000000000000000000 then
    ["Optimize He3 production path", "Balance between He3 single staking and GPH-Y liquidity"]
  else
    let pathPreference := analyzePathPreference tbl resourceBalances liquidityPositions stakePositions
    let pathSuggestions :=
      if jsIncludes pathPreference "Graphene" then
        ["Focus on Yttrium path to avoid competition", "Secure Neodymium and Dysprosium resources"]
      else if jsIncludes pathPreference "Yttrium" then
        ["Focus on Graphene path to avoid competition", "Secure Carbon and Graphite resources"]
      else ["Specialize in one path for efficiency"]
    let liquidityStrategy := analyzeLiquidityStrategy tbl liquidityPositions
    let liquiditySuggestions :=
      if jsIncludes liquidityStrategy "Base Resource" then
        ["Focus on intermediate and advanced resource liquidity"]
      else if jsIncludes liquidityStrategy "Advanced Resource" then
        ["Ensure base resource supply chain is secure"]
      else []
    pathSuggestions ++ liquiditySuggestions

/-- Per-agent intelligence snapshot (graphql.ts lines 85–93).  The nested
response wrappers (`liquidityPosition`, `userStake` arrays) are modelled as
`Option` lists, `none` standing for a nullish value, which is what the
classifiers' `?.`/`|| []` accesses and catch handlers defend against. -/
structure AgentIntelligence where
  agentId : String
  address : String
  he3Balance : String
  resourceBalances : Option (List (String × String))
  liquidityPositions : Option (List LiquidityPosition)
  stakePositions : Option (List StakePosition)
  error : Option String

/-- Per-agent derived analysis (graphql.ts lines 95–106). -/
structure StrategicAnalysis where
  agentId : String
  address : String
  he3Balance : String
  resourceFocus : String
  pathPreference : String
  liquidityStrategy : String
  stakingStrategy : String
  overallStrategy : String
  counterStrategies : List String
  error : Option String

/-- The record built for one agent in the loop of
`analyzeCompetitorStrategies` (graphql.ts lines 633–669). -/
def buildAnalysis (tbl : ContractsTable) (agentId : String)
    (intelligence : AgentIntelligence) : StrategicAnalysis :=
  ⟨agentId, intelligence.address, intelligence.he3Balance,
    analyzeResourceFocus intelligence.resourceBalances,
    analyzePathPreference tbl intelligence.resourceBalances
      intelligence.liquidityPositions intelligence.stakePositions,
    analyzeLiquidityStrategy tbl intelligence.liquidityPositions,
    analyzeStakingStrategy tbl intelligence.stakePositions,
    determineOverallStrategy intelligence.resourceBalances
      intelligence.liquidityPositions intelligence.stakePositions
      intelligence.he3Balance,
    suggestCounterStrategies tbl intelligence.resourceBalances
      intelligence.liquidityPositions intelligence.stakePositions
      intelligence.he3Balance,
    none⟩

/-- Embedding of `analyzeCompetitorStrategies` (graphql.ts lines 621–694):
agents with a truthy `error` field are skipped (`if (intelligence.error)
continue`), every other agent gets the record of `buildAnalysis`.  The
per-agent try/catch of the source is unreachable here because each
sub-analysis catches its own faults, so it does not appear in the embedding. -/
def analyzeCompetitorStrategies (tbl : ContractsTable)
    (competitiveIntelligence : List (String × AgentIntelligence)) :
    List (String × StrategicAnalysis) :=
  (competitiveIntelligence.filter (fun p => !(jsTruthy p.2.error))).map
    (fun p => (p.1, buildAnalysis tbl p.1 p.2))

/-- One row of the balance list assembled by the fetch loop of
`rankAgentsByHe3` (graphql.ts lines 713–732); a failed fetch stores the
literal "Error". -/
structure AgentBalance where
  agentId : String
  address : String
  he3Balance : String
deriving DecidableEq

/-- The big-integer value `BigInt(a.he3Balance)` used by the ranking
comparator; on the strings the fetch loop produces (`bigint.toString()`)
the parse always succeeds, so the `getD` default is never consulted there. -/
def agentBalVal (a : AgentBalance) : Int := (jsStrToBigInt a.he3Balance).getD 0

/-- Embedding of the pure tail of `rankAgentsByHe3` (graphql.ts lines
734–741), taking the per-agent balance results the fetch loop produced: drop
the "Error" rows, then sort descending by big-integer balance (stable, as
`Array.prototype.sort` specifies). -/
def rankAgentsByHe3 (balances : List AgentBalance) : List AgentBalance :=
  sortByDesc agentBalVal (balances.filter (fun a => !(a.he3Balance == "Error")))

theorem mem_insDesc (key : α → Int) (x : α) (l : List α) (a : α) :
    a ∈ insDesc key x l ↔ a = x ∨ a ∈ l := by
  induction l with
  | nil => simp [insDesc]
  | cons y ys ih =>
    by_cases h : key y ≤ key x
    · simp [insDesc, h]
    · simp only [insDesc, if_neg h, List.mem_cons, ih]
      tauto

theorem insDesc_perm (key : α → Int) (x : α) (l : List α) :
    List.Perm (insDesc key x l) (x :: l) := by
  induction l with
  | nil => simp [insDesc]
  | cons y ys ih =>
    by_cases h : key y ≤ key x
    · simp [insDesc, h]
    · simp only [insDesc, if_neg h]
      exact (ih.cons y).trans (List.Perm.swap x y ys)

theorem sortByDesc_perm (key : α → Int) (l : List α) :
    List.Perm (sortByDesc key l) l := by
  induction l with
  | nil => exact List.Perm.refl []
  | cons x xs ih => exact (insDesc_perm key x (sortByDesc key xs)).trans (ih.cons x)

theorem pairwise_insDesc (key : α → Int) (x : α) (l : List α)
    (h : l.Pairwise (fun a b => key b ≤ key a)) :
    (insDesc key x l).Pairwise (fun a b => key b ≤ key a) := by
  induction l with
  | nil => simp [insDesc]
  | cons y ys ih =>
    rcases List.pairwise_cons.mp h with ⟨hy, hys⟩
    by_cases hc : key y ≤ key x
    · simp only [insDesc, if_pos hc]
      refine List.pairwise_cons.mpr ⟨?_, h⟩
      intro b hb
      rcases List.mem_cons.mp hb with rfl | hb
      · exact hc
      · exact le_trans (hy b hb) hc
    · simp only [insDesc, if_neg hc]
      refine List.pairwise_cons.mpr ⟨?_, ih hys⟩
      intro b hb
      rcases (mem_insDesc key x ys b).mp hb with rfl | hb
      · exact le_of_lt (lt_of_not_le hc)
      · exact hy b hb

theorem sortByDesc_pairwise (key : α → Int) (l : List α) :
    (sortByDesc key l).Pairwise (fun a b => key b ≤ key a) := by
  induction l with
  | nil => simp [sortByDesc]
  | cons x xs ih => exact pairwise_insDesc key x _ ih

theorem sortByDesc_eq_nil_iff (key : α → Int) (l : List α) :
    sortByDesc key l = [] ↔ l = [] := by
  constructor
  · intro h
    have hlen := (sortByDesc_perm key l).length_eq
    rw [h] at hlen
    exact List.length_eq_zero.mp hlen.symm
  · intro h
    rw [h]
    rfl

theorem sortByDesc_head_max (key : α → Int) (l : List α) (m : α) (rest : List α)
    (h : sortByDesc key l = m :: rest) :
    m ∈ l ∧ ∀ a ∈ l, key a ≤ key m := by
  have hperm := sortByDesc_perm key l
  have hmem : m ∈ l := hperm.mem_iff.mp (by rw [h]; exact List.mem_cons_self m rest)
  refine ⟨hmem, ?_⟩
  intro a ha
  have ha2 : a ∈ sortByDesc key l := hperm.mem_iff.mpr ha
  rw [h] at ha2
  rcases List.mem_cons.mp ha2 with rfl | ha2
  · exact le_refl _
  · have hp := sortByDesc_pairwise key l
    rw [h] at hp
    exact (List.pairwise_cons.mp hp).1 a ha2

theorem sortByDesc_head_unique (key : α → Int) (l : List α) (m : α)
    (hm : m ∈ l) (hmax : ∀ q ∈ l, q ≠ m → key q < key m) :
    ∃ rest, sortByDesc key l = m :: rest := by
  cases hs : sortByDesc key l with
  | nil =>
    rw [(sortByDesc_eq_nil_iff key l).mp hs] at hm
    exact absurd hm (List.not_mem_nil m)
  | cons h rest =>
    rcases sortByDesc_head_max key l h rest hs with ⟨hhl, hall⟩
    by_cases he : h = m
    · subst he
      exact ⟨rest, rfl⟩
    · exact absurd (hall m hm) (not_le.mpr (hmax h hhl he))

theorem jsLookup_eq_none_iff (l : List (String × α)) (k : String) :
    jsLookup l k = none ↔ k ∉ l.map Prod.fst := by
  induction l with
  | nil => simp [jsLookup]
  | cons e rest ih =>
    simp only [jsLookup, List.map_cons, List.mem_cons]
    by_cases h : e.1 = k
    · simp [h]
    · rw [if_neg h, ih]
      constructor
      · intro hk hor
        rcases hor with hk2 | hk2
        · exact h hk2.symm
        · exact hk hk2
      · intro hk hk2
        exact hk (Or.inr hk2)

theorem jsLookup_perm {α : Type} {l1 l2 : List (String × α)} (p : List.Perm l1 l2) :
    ∀ (_ : (l1.map Prod.fst).Nodup) (k : String), jsLookup l1 k = jsLookup l2 k := by
  induction p with
  | nil => intro _ k; rfl
  | cons x _ ih =>
    intro hnd k
    simp only [List.map_cons, List.nodup_cons] at hnd
    by_cases hk : x.1 = k
    · simp [jsLookup, hk]
    · simp only [jsLookup, if_neg hk]
      exact ih hnd.2 k
  | swap x y l =>
    intro hnd k
    simp only [List.map_cons, List.nodup_cons, List.mem_cons] at hnd
    by_cases h1 : y.1 = k
    · by_cases h2 : x.1 = k
      · exact absurd (h2.trans h1.symm) (fun he => hnd.1 (Or.inl he.symm))
      · simp [jsLookup, h1, h2]
    · by_cases h2 : x.1 = k
      · simp [jsLookup, h1, h2]
      · simp [jsLookup, h1, h2]
  | trans p1 p2 ih1 ih2 =>
    intro hnd k
    have hndmid := (p1.map Prod.fst).nodup hnd
    exact (ih1 hnd k).trans (ih2 hndmid k)

theorem analyzeResourceFocus_cons (entries : List (String × String)) (m : String × Int)
    (rest : List (String × Int))
    (h : sortByDesc (fun p => p.2) (balancesOf entries) = m :: rest) :
    analyzeResourceFocus (some entries) =
      (if m.1 = "helium3" ∧ jsGtZero (jsLookup (balancesOf entries) "helium3") = true then
        "He3 Accumulation"
      else if m.1 = "graphene" ∨ m.1 = "yttrium" then capFirst m.1 ++ " Path Focus"
      else if m.1 = "carbon" ∨ m.1 = "neodymium" then capFirst m.1 ++ " Stockpiling"
      else "Balanced Resource Approach") := by
  simp only [analyzeResourceFocus, h, List.map_cons]

/-- C1, counterexample: the mapping {graphene: "0"} has no resource with a
positive balance, yet `analyzeResourceFocus` labels it "Graphene Path Focus"
rather than "Unknown" — zero balances still take part in the sort and the
top-resource branches do not require positivity outside the helium3 case. -/
theorem c1_counterexample :
    analyzeResourceFocus (some [("graphene", "0")]) = "Graphene Path Focus" ∧
    "Graphene Path Focus" ≠ "Unknown" := by
  decide

/-- C1, amended: `analyzeResourceFocus` returns "Unknown" exactly when the
mapping contains no non-Error entry (it is empty or every balance is the
"Error" sentinel); in particular an all-zero mapping gets a top-resource
label, not "Unknown". -/
theorem c1_unknown_iff (entries : List (String × String)) :
    analyzeResourceFocus (some entries) = "Unknown" ↔
      entries.filter (fun e => !(e.2 == "Error")) = [] := by
  constructor
  · intro h
    by_contra hne
    have hbal : balancesOf entries ≠ [] := by
      simp only [balancesOf, ne_eq, List.map_eq_nil_iff]
      exact hne
    cases hcs : sortByDesc (fun p => p.2) (balancesOf entries) with
    | nil => exact hbal ((sortByDesc_eq_nil_iff _ _).mp hcs)
    | cons m rest =>
      rw [analyzeResourceFocus_cons entries m rest hcs] at h
      by_cases h1 : m.1 = "helium3" ∧ jsGtZero (jsLookup (balancesOf entries) "helium3") = true
      · rw [if_pos h1] at h
        exact absurd h (by decide)
      · rw [if_neg h1] at h
        by_cases h2 : m.1 = "graphene" ∨ m.1 = "yttrium"
        · rw [if_pos h2] at h
          rcases h2 with h2 | h2 <;> rw [h2] at h <;> exact absurd h (by decide)
        · rw [if_neg h2] at h
          by_cases h3 : m.1 = "carbon" ∨ m.1 = "neodymium"
          · rw [if_pos h3] at h
            rcases h3 with h3 | h3 <;> rw [h3] at h <;> exact absurd h (by decide)
          · rw [if_neg h3] at h
            exact absurd h (by decide)
  · intro h
    have hbal : balancesOf entries = [] := by
      simp only [balancesOf, h, List.map_nil]
    simp [analyzeResourceFocus, hbal, sortByDesc]

/-- C5, counterexample: the same entries in the two insertion orders — a tie
between "graphene" and "carbon" at the top balance — produce different
labels, because the stable sort breaks ties by insertion order. -/
theorem c5_counterexample :
    List.Perm [(("graphene" : String), ("5" : String)), ("carbon", "5")]
      [("carbon", "5"), ("graphene", "5")] ∧
    analyzeResourceFocus (some [("graphene", "5"), ("carbon", "5")]) = "Graphene Path Focus" ∧
    analyzeResourceFocus (some [("carbon", "5"), ("graphene", "5")]) = "Carbon Stockpiling" := by
  refine ⟨List.Perm.swap ("carbon", "5") ("graphene", "5") [], by decide, by decide⟩

/-- C5, amended: for mappings with the same entries in different insertion
orders, `analyzeResourceFocus` returns the same label provided the maximum
converted balance is attained by a unique entry (no tie at the top); with a
tie the label follows insertion order. -/
theorem c5_order_independent (l1 l2 : List (String × String))
    (hp : List.Perm l1 l2) (hnd : (l1.map Prod.fst).Nodup)
    (hmax : ∃ m ∈ balancesOf l1, ∀ q ∈ balancesOf l1, q ≠ m → q.2 < m.2) :
    analyzeResourceFocus (some l1) = analyzeResourceFocus (some l2) := by
  obtain ⟨m, hm, hmaxm⟩ := hmax
  have hpb : List.Perm (balancesOf l1) (balancesOf l2) := by
    unfold balancesOf
    exact (hp.filter _).map _
  have hm2 : m ∈ balancesOf l2 := hpb.mem_iff.mp hm
  have hmax2 : ∀ q ∈ balancesOf l2, q ≠ m → q.2 < m.2 := fun q hq =>
    hmaxm q (hpb.mem_iff.mpr hq)
  obtain ⟨r1, hs1⟩ := sortByDesc_head_unique (fun p => p.2) (balancesOf l1) m hm hmaxm
  obtain ⟨r2, hs2⟩ := sortByDesc_head_unique (fun p => p.2) (balancesOf l2) m hm2 hmax2
  have hkeys : (balancesOf l1).map Prod.fst =
      (l1.filter (fun e => !(e.2 == "Error"))).map Prod.fst := by
    unfold balancesOf
    rw [List.map_map]
    rfl
  have hndb : ((balancesOf l1).map Prod.fst).Nodup := by
    rw [hkeys]
    exact ((List.filter_sublist l1).map Prod.fst).nodup hnd
  have hlook : jsLookup (balancesOf l1) "helium3" = jsLookup (balancesOf l2) "helium3" :=
    jsLookup_perm hpb hndb "helium3"
  rw [analyzeResourceFocus_cons l1 m r1 hs1, analyzeResourceFocus_cons l2 m r2 hs2, hlook]

/-- Witness for C5's amended theorem at a concrete pair of reorderings with a
unique maximum. -/
theorem c5_order_independent_witness :
    analyzeResourceFocus (some [("helium3", "7"), ("carbon", "3")]) =
      analyzeResourceFocus (some [("carbon", "3"), ("helium3", "7")]) :=
  c5_order_independent _ _ (by decide) (by decide) (by decide)

theorem digit_not_ws (c : Char) (h : isDecDigit c = true) : isJsWhitespace c = false := by
  cases hb : isJsWhitespace c
  · rfl
  · exfalso
    simp only [isDecDigit, Bool.and_eq_true, decide_eq_true_eq] at h
    simp only [isJsWhitespace, Bool.or_eq_true, Bool.and_eq_true, beq_iff_eq,
      decide_eq_true_eq] at hb
    omega

theorem dropWhile_eq_self_of_all {p : Char → Bool} (l : List Char)
    (h : ∀ c ∈ l, p c = false) : l.dropWhile p = l := by
  cases l with
  | nil => rfl
  | cons c cs => simp [List.dropWhile_cons, h c (List.mem_cons_self c cs)]

theorem trimJsWs_eq_self (cs : List Char) (h : ∀ c ∈ cs, isDecDigit c = true) :
    trimJsWs cs = cs := by
  unfold trimJsWs
  have h1 : ∀ c ∈ cs, isJsWhitespace c = false := fun c hc => digit_not_ws c (h c hc)
  have h2 : ∀ c ∈ cs.reverse, isJsWhitespace c = false := fun c hc =>
    h1 c (List.mem_reverse.mp hc)
  rw [dropWhile_eq_self_of_all cs h1, dropWhile_eq_self_of_all cs.reverse h2,
    List.reverse_reverse]

theorem digitVal?_of_digit (c : Char) (h : isDecDigit c = true) :
    digitVal? 10 c = some (c.toNat - 48) := by
  have hlt : c.toNat - 48 < 10 := by
    simp only [isDecDigit, Bool.and_eq_true, decide_eq_true_eq] at h
    omega
  unfold digitVal?
  rw [if_pos h, if_pos hlt]

theorem digitsToNat_digits (cs : List Char) (h : ∀ c ∈ cs, isDecDigit c = true) :
    ∀ acc, ∃ n, digitsToNat 10 acc cs = some n := by
  induction cs with
  | nil => exact fun acc => ⟨acc, rfl⟩
  | cons c cs ih =>
    intro acc
    have hc := digitVal?_of_digit c (h c (List.mem_cons_self c cs))
    obtain ⟨n, hn⟩ := ih (fun x hx => h x (List.mem_cons_of_mem c hx))
      (acc * 10 + (c.toNat - 48))
    refine ⟨n, ?_⟩
    simp only [digitsToNat, hc]
    exact hn

theorem jsStrToBigInt_digits (s : String) (hne : s.data ≠ [])
    (hd : ∀ c ∈ s.data, isDecDigit c = true) :
    ∃ n : Nat, jsStrToBigInt s = some (n : Int) := by
  obtain ⟨c, rest, hcs⟩ := List.exists_cons_of_ne_nil hne
  obtain ⟨n, hn⟩ := digitsToNat_digits s.data hd 0
  refine ⟨n, ?_⟩
  unfold jsStrToBigInt
  rw [trimJsWs_eq_self s.data hd, hcs]
  have hc : isDecDigit c = true := hd c (by rw [hcs]; exact List.mem_cons_self c rest)
  have hplus : ¬ c = '+' := fun he => by rw [he] at hc; exact absurd hc (by decide)
  have hminus : ¬ c = '-' := fun he => by rw [he] at hc; exact absurd hc (by decide)
  rw [hcs] at hn
  by_cases hc0 : c = '0'
  · subst hc0
    cases rest with
    | nil =>
      have h0 : digitsToNat 10 0 ['0'] = some 0 := by decide
      rw [h0] at hn
      obtain rfl : (0 : Nat) = n := Option.some.inj hn
      decide
    | cons r rest2 =>
      have hr : isDecDigit r = true := by
        rw [hcs] at hd
        exact hd r (List.mem_cons_of_mem _ (List.mem_cons_self r rest2))
      have hx : ¬ (r = 'x' ∨ r = 'X') := by
        rintro (rfl | rfl) <;> exact absurd hr (by decide)
      have ho : ¬ (r = 'o' ∨ r = 'O') := by
        rintro (rfl | rfl) <;> exact absurd hr (by decide)
      have hb2 : ¬ (r = 'b' ∨ r = 'B') := by
        rintro (rfl | rfl) <;> exact absurd hr (by decide)
      simp only [strToBigIntTrimmed, if_true]
      rw [if_neg hx, if_neg ho, if_neg hb2]
      rw [show parseDigits 10 ('0' :: r :: rest2) = digitsToNat 10 0 ('0' :: r :: rest2) from rfl,
        hn]
      rfl
  · simp only [strToBigIntTrimmed]
    rw [if_neg hplus, if_neg hminus, if_neg hc0]
    rw [show parseDigits 10 (c :: rest) = digitsToNat 10 0 (c :: rest) from rfl, hn]
    rfl

/-- C2: `safeBigIntConversion` never fails outward — a well-formed
non-negative decimal integer string converts to exactly `BigInt(s)` (the
parse result), while the empty string, `undefined`/`null`, the "Error"
sentinel, and every unparseable string all return the caller-supplied
default. -/
theorem c2_safe_conversion (s t : String) (d : Int)
    (hs1 : s.data ≠ []) (hs2 : ∀ c ∈ s.data, isDecDigit c = true)
    (ht : jsStrToBigInt t = none) :
    jsStrToBigInt s = some (safeBigIntConversion (some s) d) ∧
    safeBigIntConversion (some "") d = d ∧
    safeBigIntConversion none d = d ∧
    safeBigIntConversion (some "Error") d = d ∧
    safeBigIntConversion (some t) d = d := by
  refine ⟨?_, by simp [safeBigIntConversion], rfl, ?_, ?_⟩
  · obtain ⟨n, hn⟩ := jsStrToBigInt_digits s hs1 hs2
    have hsne : ¬ s = "" := fun he => hs1 (by simp [he])
    simp only [safeBigIntConversion]
    rw [if_neg hsne, hn]
  · simp only [safeBigIntConversion]
    rw [if_neg (by decide : ¬ ("Error" : String) = "")]
    rw [show jsStrToBigInt "Error" = none from by decide]
  · by_cases htE : t = ""
    · subst htE
      simp [safeBigIntConversion]
    · simp only [safeBigIntConversion]
      rw [if_neg htE, ht]

/-- Witness for C2 at the digit string "42", the unparseable string
"not-a-number", and default 7. -/
theorem c2_safe_conversion_witness :
    jsStrToBigInt "42" = some (safeBigIntConversion (some "42") 7) ∧
    safeBigIntConversion (some "") 7 = 7 ∧
    safeBigIntConversion none 7 = 7 ∧
    safeBigIntConversion (some "Error") 7 = 7 ∧
    safeBigIntConversion (some "not-a-number") 7 = 7 :=
  c2_safe_conversion "42" "not-a-number" 7 (by decide) (by decide) (by decide)

/-- Whether a balance entry contributes +1 to the Graphene-path score: a
non-error, non-zero balance on a Graphene-path resource (the claim's wording
of graphql.ts lines 194–207). -/
def countsForGraphenePath (e : String × String) : Bool :=
  !(e.2 == "Error") && !(safeBigIntConversion (some e.2) 0 == 0) &&
    graphenePathResources.contains e.1

/-- Whether a balance entry contributes +1 to the Yttrium-path score. -/
def countsForYttriumPath (e : String × String) : Bool :=
  !(e.2 == "Error") && !(safeBigIntConversion (some e.2) 0 == 0) &&
    yttriumPathResources.contains e.1

theorem foldl_pathResourceStep (entries : List (String × String)) :
    ∀ g y : Nat, entries.foldl pathResourceStep (g, y) =
      (g + (entries.filter countsForGraphenePath).length,
       y + (entries.filter countsForYttriumPath).length) := by
  induction entries with
  | nil => intro g y; simp
  | cons e rest ih =>
    intro g y
    rw [List.foldl_cons]
    by_cases h1 : e.2 = "Error"
    · have hstep : pathResourceStep (g, y) e = (g, y) := by simp [pathResourceStep, h1]
      rw [hstep, ih g y, List.filter_cons, List.filter_cons]
      simp [countsForGraphenePath, countsForYttriumPath, h1]
    · by_cases h2 : safeBigIntConversion (some e.2) 0 = 0
      · have hstep : pathResourceStep (g, y) e = (g, y) := by
          simp [pathResourceStep, h1, h2]
        rw [hstep, ih g y, List.filter_cons, List.filter_cons]
        simp [countsForGraphenePath, countsForYttriumPath, h1, h2]
      · have hstep : pathResourceStep (g, y) e =
            ((if graphenePathResources.contains e.1 then g + 1 else g),
             (if yttriumPathResources.contains e.1 then y + 1 else y)) := by
          simp [pathResourceStep, h1, h2]
        rw [hstep, ih, List.filter_cons, List.filter_cons]
        by_cases h3 : e.1 ∈ graphenePathResources <;>
          by_cases h4 : e.1 ∈ yttriumPathResources <;>
          simp [countsForGraphenePath, countsForYttriumPath, h1, h2, h3, h4] <;>
          omega

theorem foldl_pathLiquidityStep (tbl : ContractsTable) (positions : List LiquidityPosition) :
    ∀ g y : Nat, positions.foldl (pathLiquidityStep tbl) (g, y) =
      (g + 2 * (positions.filter fun p => isGraphenePair tbl p.pairAddress).length,
       y + 2 * (positions.filter fun p => isYttriumPair tbl p.pairAddress).length) := by
  induction positions with
  | nil => intro g y; simp
  | cons p rest ih =>
    intro g y
    rw [List.foldl_cons,
      show pathLiquidityStep tbl (g, y) p =
        ((if isGraphenePair tbl p.pairAddress then g + 2 else g),
         (if isYttriumPair tbl p.pairAddress then y + 2 else y)) from rfl,
      ih, List.filter_cons, List.filter_cons]
    by_cases h3 : isGraphenePair tbl p.pairAddress <;>
      by_cases h4 : isYttriumPair tbl p.pairAddress <;>
      simp [h3, h4] <;> omega

theorem foldl_pathStakeStep (tbl : ContractsTable) (stakes : List StakePosition) :
    ∀ g y : Nat, stakes.foldl (pathStakeStep tbl) (g, y) =
      (g + 3 * (stakes.filter fun st => isGrapheneReactor tbl st.reactorAddress).length,
       y + 3 * (stakes.filter fun st => isYttriumReactor tbl st.reactorAddress).length) := by
  induction stakes with
  | nil => intro g y; simp
  | cons st rest ih =>
    intro g y
    rw [List.foldl_cons,
      show pathStakeStep tbl (g, y) st =
        ((if isGrapheneReactor tbl st.reactorAddress then g + 3 else g),
         (if isYttriumReactor tbl st.reactorAddress then y + 3 else y)) from rfl,
      ih, List.filter_cons, List.filter_cons]
    by_cases h3 : isGrapheneReactor tbl st.reactorAddress <;>
      by_cases h4 : isYttriumReactor tbl st.reactorAddress <;>
      simp [h3, h4] <;> omega

/-- The Graphene-path score as the claim describes it: +1 per non-error
non-zero balance in the path's resource set, +2 per liquidity position whose
pair address belongs to the path, +3 per stake position whose reactor
address belongs to the path. -/
def graphenePathScoreSpec (tbl : ContractsTable) (entries : List (String × String))
    (liq : List LiquidityPosition) (stakes : List StakePosition) : Nat :=
  (entries.filter countsForGraphenePath).length +
    2 * (liq.filter fun p => isGraphenePair tbl p.pairAddress).length +
    3 * (stakes.filter fun st => isGrapheneReactor tbl st.reactorAddress).length

/-- The Yttrium-path score as the claim describes it. -/
def yttriumPathScoreSpec (tbl : ContractsTable) (entries : List (String × String))
    (liq : List LiquidityPosition) (stakes : List StakePosition) : Nat :=
  (entries.filter countsForYttriumPath).length +
    2 * (liq.filter fun p => isYttriumPair tbl p.pairAddress).length +
    3 * (stakes.filter fun st => isYttriumReactor tbl st.reactorAddress).length

/-- The path-preference classifier as the claim states it: Strong when one
score exceeds twice the other, Moderate when it merely exceeds it, Balanced
when the scores are equal (the ordered ladder). -/
def pathPreferenceSpec (tbl : ContractsTable) (entries : List (String × String))
    (liq : List LiquidityPosition) (stakes : List StakePosition) : String :=
  let scoreA := graphenePathScoreSpec tbl entries liq stakes
  let scoreB := yttriumPathScoreSpec tbl entries liq stakes
  if scoreA > 2 * scoreB then "Strong Graphene Path Preference"
  else if scoreA > scoreB then "Moderate Graphene Path Preference"
  else if scoreB > 2 * scoreA then "Strong Yttrium Path Preference"
  else if scoreB > scoreA then "Moderate Yttrium Path Preference"
  else "Balanced Path Approach"

/-- C3: `analyzePathPreference` computes exactly the claim's weighted scores
and ladder — for every contracts table, balance mapping, liquidity-position
list and stake-position list. -/
theorem c3_path_preference (tbl : ContractsTable) (entries : List (String × String))
    (liq : List LiquidityPosition) (stakes : List StakePosition) :
    analyzePathPreference tbl (some entries) (some liq) (some stakes) =
      pathPreferenceSpec tbl entries liq stakes := by
  simp only [analyzePathPreference, Option.getD_some, foldl_pathResourceStep,
    foldl_pathLiquidityStep, foldl_pathStakeStep, pathPreferenceSpec,
    graphenePathScoreSpec, yttriumPathScoreSpec, Nat.zero_add, Nat.mul_comm _ 2]

theorem hasResource_eq (entries : List (String × String)) (k : String) :
    (jsTruthy (jsLookup entries k) &&
      decide (0 < safeBigIntConversion (jsLookup entries k) 0)) =
    decide (0 < safeBigIntConversion (jsLookup entries k) 0) := by
  cases h : jsLookup entries k with
  | none => decide
  | some v =>
    by_cases hv : v = ""
    · subst hv
      decide
    · simp [jsTruthy, hv]

/-- The spec's game-stage thresholds, written 800000×10^18 and 500000×10^18. -/
def endGameThresholdSpec : Int := 800000 * 10 ^ 18

/-- The late-game threshold, 500000×10^18. -/
def lateGameThresholdSpec : Int := 500000 * 10 ^ 18

/-- The overall-strategy stage rules exactly as the claim lists them, first
match winning; "positive" is positivity of the safely converted lookup. -/
def overallStrategySpec (entries : List (String × String))
    (liq : Option (List LiquidityPosition)) (he3Balance : String) : String :=
  let balance := safeBigIntConversion (some he3Balance) 0
  if balance > endGameThresholdSpec then "End Game - Final He3 Accumulation"
  else if balance > lateGameThresholdSpec then "Late Game - He3 Acceleration"
  else
    let graphenePositive := decide (0 < safeBigIntConversion (jsLookup entries "graphene") 0)
    let yttriumPositive := decide (0 < safeBigIntConversion (jsLookup entries "yttrium") 0)
    if graphenePositive && yttriumPositive then "Mid Game - Dual Path Production"
    else if graphenePositive then "Mid Game - Graphene Path Focus"
    else if yttriumPositive then "Mid Game - Yttrium Path Focus"
    else if (liq.getD []).length > 0 then "Early Game - Resource Conversion Setup"
    else "Early Game - Resource Accumulation"

/-- C4: `determineOverallStrategy` implements the claim's seven-rule ladder
in order with first match winning, its thresholds are exactly 800000×10^18
and 500000×10^18, and the late-game threshold is below the end-game one. -/
theorem c4_overall_strategy (entries : List (String × String))
    (liq : Option (List LiquidityPosition)) (stakes : Option (List StakePosition))
    (he3Balance : String) :
    determineOverallStrategy (some entries) liq stakes he3Balance =
      overallStrategySpec entries liq he3Balance ∧
    lateGameThresholdSpec < endGameThresholdSpec ∧
    endGameThresholdSpec = 800000000000000000000000 ∧
    lateGameThresholdSpec = 500000000000000000000000 := by
  refine ⟨?_, by norm_num [lateGameThresholdSpec, endGameThresholdSpec],
    by norm_num [endGameThresholdSpec], by norm_num [lateGameThresholdSpec]⟩
  simp only [determineOverallStrategy, overallStrategySpec, hasResource_eq,
    endGameThresholdSpec, lateGameThresholdSpec]
  norm_num

/-- C10: `determineOverallStrategy` and `suggestCounterStrategies` branch on
the same two threshold constants, so the end-game label corresponds exactly
to the end-game suggestion pair and the late-game label to the late-game
suggestion pair, on every input. -/
theorem c10_thresholds_agree (tbl : ContractsTable)
    (rb : Option (List (String × String)))
    (liq : Option (List LiquidityPosition)) (stakes : Option (List StakePosition))
    (he3Balance : String) :
    (determineOverallStrategy rb liq stakes he3Balance = "End Game - Final He3 Accumulation" ↔
      suggestCounterStrategies tbl rb liq stakes he3Balance =
        ["Accelerate He3 production to catch up", "Focus exclusively on He3 single staking"]) ∧
    (determineOverallStrategy rb liq stakes he3Balance = "Late Game - He3 Acceleration" ↔
      suggestCounterStrategies tbl rb liq stakes he3Balance =
        ["Optimize He3 production path",
         "Balance between He3 single staking and GPH-Y liquidity"]) := by
  simp only [determineOverallStrategy, suggestCounterStrategies]
  by_cases h1 : safeBigIntConversion (some he3Balance) 0 > 800000000000000000000000
  · rw [if_pos h1, if_pos h1]
    decide
  · rw [if_neg h1, if_neg h1]
    by_cases h2 : safeBigIntConversion (some he3Balance) 0 > 500000000000000000000000
    · rw [if_pos h2, if_pos h2]
      decide
    · rw [if_neg h2, if_neg h2]
      constructor
      · constructor
        · intro h
          exfalso
          cases rb with
          | none =>
            have hA : "Analysis Error" = "End Game - Final He3 Accumulation" := h
            exact absurd hA (by decide)
          | some entries =>
            repeat' split at h
            all_goals exact absurd h (by decide)
        · intro h
          exfalso
          repeat' split at h
          all_goals exact absurd h (by decide)
      · constructor
        · intro h
          exfalso
          cases rb with
          | none =>
            have hA : "Analysis Error" = "Late Game - He3 Acceleration" := h
            exact absurd hA (by decide)
          | some entries =>
            repeat' split at h
            all_goals exact absurd h (by decide)
        · intro h
          exfalso
          repeat' split at h
          all_goals exact absurd h (by decide)

/-- The fixed label set of `analyzeResourceFocus`. -/
def resourceFocusLabels : List String :=
  ["Unknown", "He3 Accumulation", "Graphene Path Focus", "Yttrium Path Focus",
   "Carbon Stockpiling", "Neodymium Stockpiling", "Balanced Resource Approach",
   "Analysis Error"]

/-- The fixed label set of `analyzePathPreference`. -/
def pathPreferenceLabels : List String :=
  ["Strong Graphene Path Preference", "Moderate Graphene Path Preference",
   "Strong Yttrium Path Preference", "Moderate Yttrium Path Preference",
   "Balanced Path Approach", "Analysis Error"]

/-- The fixed label set of `analyzeLiquidityStrategy`. -/
def liquidityStrategyLabels : List String :=
  ["No Liquidity Positions", "Advanced Resource Liquidity Focus",
   "Intermediate Resource Liquidity Focus", "Base Resource Liquidity Focus",
   "Diversified Liquidity Strategy", "Analysis Error"]

/-- The fixed label set of `analyzeStakingStrategy`. -/
def stakingStrategyLabels : List String :=
  ["No Staking Positions", "He3 Single Stake Focus", "Advanced Resource Staking Focus",
   "Intermediate Resource Staking Focus", "Base Resource Staking Focus",
   "Diversified Staking Strategy", "Analysis Error"]

/-- The fixed label set of `determineOverallStrategy`. -/
def overallStrategyLabels : List String :=
  ["End Game - Final He3 Accumulation", "Late Game - He3 Acceleration",
   "Mid Game - Dual Path Production", "Mid Game - Graphene Path Focus",
   "Mid Game - Yttrium Path Focus", "Early Game - Resource Conversion Setup",
   "Early Game - Resource Accumulation", "Analysis Error"]

theorem analyzeResourceFocus_mem (rb : Option (List (String × String))) :
    analyzeResourceFocus rb ∈ resourceFocusLabels := by
  cases rb with
  | none => decide
  | some entries =>
    cases hs : sortByDesc (fun p => p.2) (balancesOf entries) with
    | nil =>
      simp only [analyzeResourceFocus, hs, List.map_nil]
      decide
    | cons m rest =>
      rw [analyzeResourceFocus_cons entries m rest hs]
      by_cases h1 : m.1 = "helium3" ∧ jsGtZero (jsLookup (balancesOf entries) "helium3") = true
      · rw [if_pos h1]
        decide
      · rw [if_neg h1]
        by_cases h2 : m.1 = "graphene" ∨ m.1 = "yttrium"
        · rw [if_pos h2]
          rcases h2 with h2 | h2 <;> rw [h2] <;> decide
        · rw [if_neg h2]
          by_cases h3 : m.1 = "carbon" ∨ m.1 = "neodymium"
          · rw [if_pos h3]
            rcases h3 with h3 | h3 <;> rw [h3] <;> decide
          · rw [if_neg h3]
            decide

theorem analyzePathPreference_mem (tbl : ContractsTable)
    (rb : Option (List (String × String))) (liq : Option (List LiquidityPosition))
    (stakes : Option (List StakePosition)) :
    analyzePathPreference tbl rb liq stakes ∈ pathPreferenceLabels := by
  cases rb with
  | none => exact (by decide : "Analysis Error" ∈ pathPreferenceLabels)
  | some entries =>
    simp only [analyzePathPreference]
    repeat' split
    all_goals decide

theorem analyzeLiquidityStrategy_mem (tbl : ContractsTable)
    (liq : Option (List LiquidityPosition)) :
    analyzeLiquidityStrategy tbl liq ∈ liquidityStrategyLabels := by
  simp only [analyzeLiquidityStrategy]
  repeat' split
  all_goals decide

theorem analyzeStakingStrategy_mem (tbl : ContractsTable)
    (stakes : Option (List StakePosition)) :
    analyzeStakingStrategy tbl stakes ∈ stakingStrategyLabels := by
  simp only [analyzeStakingStrategy]
  repeat' split
  all_goals decide

theorem determineOverallStrategy_mem (rb : Option (List (String × String)))
    (liq : Option (List LiquidityPosition)) (stakes : Option (List StakePosition))
    (he3Balance : String) :
    determineOverallStrategy rb liq stakes he3Balance ∈ overallStrategyLabels := by
  simp only [determineOverallStrategy]
  repeat' split
  all_goals decide

/-- C7: every classifier returns a member of its fixed enumerated label set on
every input; the embeddings are total functions, mirroring that the source
classifiers catch internal faults and answer "Analysis Error" (a member of
each set) instead of throwing. -/
theorem c7_label_sets (tbl : ContractsTable) (rb : Option (List (String × String)))
    (liq : Option (List LiquidityPosition)) (stakes : Option (List StakePosition))
    (he3Balance : String) :
    analyzeResourceFocus rb ∈ resourceFocusLabels ∧
    analyzePathPreference tbl rb liq stakes ∈ pathPreferenceLabels ∧
    analyzeLiquidityStrategy tbl liq ∈ liquidityStrategyLabels ∧
    analyzeStakingStrategy tbl stakes ∈ stakingStrategyLabels ∧
    determineOverallStrategy rb liq stakes he3Balance ∈ overallStrategyLabels :=
  ⟨analyzeResourceFocus_mem rb, analyzePathPreference_mem tbl rb liq stakes,
   analyzeLiquidityStrategy_mem tbl liq, analyzeStakingStrategy_mem tbl stakes,
   determineOverallStrategy_mem rb liq stakes he3Balance⟩

theorem analyzeCompetitorStrategies_keys (tbl : ContractsTable)
    (m : List (String × AgentIntelligence)) :
    (analyzeCompetitorStrategies tbl m).map Prod.fst =
      (m.filter (fun p => !(jsTruthy p.2.error))).map Prod.fst := by
  unfold analyzeCompetitorStrategies
  rw [List.map_map]
  rfl

/-- C8: a sub-analysis fault for one agent — modelled by a nullish
`resourceBalances`, the input on which `analyzeResourceFocus` and
`analyzePathPreference` fault internally and answer "Analysis Error" — is
confined to the faulting sub-analyses: the same agent's liquidity and
staking sub-analyses still produce their normal results, and every other
agent's record is exactly what it would be on its own. -/
theorem c8_fault_isolation (tbl : ContractsTable)
    (pre post : List (String × AgentIntelligence)) (aid : String)
    (intel : AgentIntelligence) (herr : intel.error = none)
    (hrb : intel.resourceBalances = none) :
    analyzeCompetitorStrategies tbl (pre ++ (aid, intel) :: post) =
      analyzeCompetitorStrategies tbl pre ++
        (aid, buildAnalysis tbl aid intel) :: analyzeCompetitorStrategies tbl post ∧
    (buildAnalysis tbl aid intel).resourceFocus = "Analysis Error" ∧
    (buildAnalysis tbl aid intel).pathPreference = "Analysis Error" ∧
    (buildAnalysis tbl aid intel).liquidityStrategy =
      analyzeLiquidityStrategy tbl intel.liquidityPositions ∧
    (buildAnalysis tbl aid intel).stakingStrategy =
      analyzeStakingStrategy tbl intel.stakePositions := by
  refine ⟨?_, ?_, ?_, rfl, rfl⟩
  · simp [analyzeCompetitorStrategies, List.filter_append, List.filter_cons,
      List.map_append, List.map_cons, herr, jsTruthy]
  · simp [buildAnalysis, hrb, analyzeResourceFocus]
  · simp [buildAnalysis, hrb, analyzePathPreference]

/-- An empty contracts table used by the concrete witnesses. -/
def sampleTable : ContractsTable := ⟨[], []⟩

/-- An agent whose resourceBalances is nullish (sub-analysis fault input). -/
def intelNullRb : AgentIntelligence :=
  ⟨"a", "0xa", "0", none, some [], some [], none⟩

/-- A healthy agent record. -/
def intelOkB : AgentIntelligence :=
  ⟨"b", "0xb", "5", some [("carbon", "5")], some [], some [], none⟩

/-- Witness for C8 with one faulting agent between no agents and one healthy
agent. -/
theorem c8_fault_isolation_witness :
    analyzeCompetitorStrategies sampleTable ([] ++ ("a", intelNullRb) :: [("b", intelOkB)]) =
      analyzeCompetitorStrategies sampleTable [] ++
        ("a", buildAnalysis sampleTable "a" intelNullRb) ::
          analyzeCompetitorStrategies sampleTable [("b", intelOkB)] ∧
    (buildAnalysis sampleTable "a" intelNullRb).resourceFocus = "Analysis Error" ∧
    (buildAnalysis sampleTable "a" intelNullRb).pathPreference = "Analysis Error" ∧
    (buildAnalysis sampleTable "a" intelNullRb).liquidityStrategy =
      analyzeLiquidityStrategy sampleTable intelNullRb.liquidityPositions ∧
    (buildAnalysis sampleTable "a" intelNullRb).stakingStrategy =
      analyzeStakingStrategy sampleTable intelNullRb.stakePositions :=
  c8_fault_isolation sampleTable [] [("b", intelOkB)] "a" intelNullRb rfl rfl

/-- An intelligence record whose error field is defined but empty. -/
def intelEmptyError : AgentIntelligence :=
  ⟨"a1", "0xa1", "0", some [], some [], some [], some ""⟩

/-- C9, counterexample: an agent whose AgentIntelligence carries a defined
error field — the empty string — is not omitted: the source tests
truthiness (`if (intelligence.error) continue`) rather than definedness, and
`""` is falsy, so this agent still receives a record. -/
theorem c9_counterexample :
    intelEmptyError.error = some "" ∧
    (jsLookup (analyzeCompetitorStrategies sampleTable [("a1", intelEmptyError)])
      "a1").isSome = true := by
  constructor
  · rfl
  · decide

/-- C9, amended: for maps with distinct agent ids, the analysis map has a
record for an agent exactly when the agent is present with a falsy error
field (undefined or the empty string); agents with a defined non-empty error
are omitted. -/
theorem c9_record_iff (tbl : ContractsTable) (m : List (String × AgentIntelligence))
    (aid : String) (hnd : (m.map Prod.fst).Nodup) :
    (∃ r, jsLookup (analyzeCompetitorStrategies tbl m) aid = some r) ↔
    (∃ i, jsLookup m aid = some i ∧ jsTruthy i.error = false) := by
  revert hnd
  induction m with
  | nil =>
    intro _
    simp [analyzeCompetitorStrategies, jsLookup]
  | cons p rest ih =>
    intro hnd
    simp only [List.map_cons, List.nodup_cons] at hnd
    obtain ⟨hp, hrest⟩ := hnd
    by_cases htr : jsTruthy p.2.error
    · have hfil : analyzeCompetitorStrategies tbl (p :: rest) =
          analyzeCompetitorStrategies tbl rest := by
        simp [analyzeCompetitorStrategies, List.filter_cons, htr]
      rw [hfil]
      by_cases hk : p.1 = aid
      · subst hk
        constructor
        · rintro ⟨r, hr⟩
          exfalso
          have hnone : jsLookup (analyzeCompetitorStrategies tbl rest) p.1 = none := by
            rw [jsLookup_eq_none_iff, analyzeCompetitorStrategies_keys]
            intro hmem
            exact hp (((List.filter_sublist rest).map Prod.fst).subset hmem)
          rw [hnone] at hr
          exact Option.noConfusion hr
        · rintro ⟨i, hi, hfalse⟩
          have hip : i = p.2 := by
            simp only [jsLookup, if_pos rfl] at hi
            exact (Option.some.inj hi).symm
          rw [hip] at hfalse
          rw [hfalse] at htr
          exact Bool.noConfusion htr
      · have hskip : jsLookup (p :: rest) aid = jsLookup rest aid := by
          simp only [jsLookup, if_neg hk]
        rw [hskip]
        exact ih hrest
    · have hfil : analyzeCompetitorStrategies tbl (p :: rest) =
          (p.1, buildAnalysis tbl p.1 p.2) :: analyzeCompetitorStrategies tbl rest := by
        simp [analyzeCompetitorStrategies, List.filter_cons, htr]
      rw [hfil]
      by_cases hk : p.1 = aid
      · subst hk
        constructor
        · intro _
          refine ⟨p.2, ?_, ?_⟩
          · simp [jsLookup]
          · exact Bool.not_eq_true _ ▸ Bool.of_not_eq_true htr
        · intro _
          exact ⟨buildAnalysis tbl p.1 p.2, by simp [jsLookup]⟩
      · have hskip1 : jsLookup ((p.1, buildAnalysis tbl p.1 p.2) ::
            analyzeCompetitorStrategies tbl rest) aid =
            jsLookup (analyzeCompetitorStrategies tbl rest) aid := by
          simp only [jsLookup, if_neg hk]
        have hskip2 : jsLookup (p :: rest) aid = jsLookup rest aid := by
          simp only [jsLookup, if_neg hk]
        rw [hskip1, hskip2]
        exact ih hrest

/-- A record with a defined non-empty (truthy) error field. -/
def intelErrC : AgentIntelligence :=
  ⟨"c", "0xc", "0", some [], some [], some [], some "boom"⟩

/-- Witness for C9's amended theorem on a concrete two-agent map. -/
theorem c9_record_iff_witness :
    (∃ r, jsLookup (analyzeCompetitorStrategies sampleTable
        [("b", intelOkB), ("c", intelErrC)]) "b" = some r) ↔
    (∃ i, jsLookup [("b", intelOkB), ("c", intelErrC)] "b" = some i ∧
      jsTruthy i.error = false) :=
  c9_record_iff sampleTable [("b", intelOkB), ("c", intelErrC)] "b" (by decide)

/-- C6: the ranking keeps exactly the rows whose fetch succeeded (the "Error"
rows are dropped) as a permutation of the filtered input, and the output is
sorted descending under arbitrary-precision big-integer comparison of the
balance strings — which is correct for balances beyond 2^53 because the
comparison parses the full decimal string into an unbounded integer.  The
hypothesis records what the fetch loop guarantees: every non-"Error" row is
a `bigint.toString()` image, hence parseable. -/
theorem c6_rank_agents (l : List AgentBalance)
    (h : ∀ a ∈ l, a.he3Balance ≠ "Error" → (jsStrToBigInt a.he3Balance).isSome = true) :
    List.Perm (rankAgentsByHe3 l) (l.filter (fun a => !(a.he3Balance == "Error"))) ∧
    List.Pairwise (fun a b => agentBalVal b ≤ agentBalVal a) (rankAgentsByHe3 l) ∧
    List.Chain' (fun a b => agentBalVal b ≤ agentBalVal a) (rankAgentsByHe3 l) :=
  ⟨sortByDesc_perm agentBalVal (l.filter (fun a => !(a.he3Balance == "Error"))),
   sortByDesc_pairwise agentBalVal (l.filter (fun a => !(a.he3Balance == "Error"))),
   (sortByDesc_pairwise agentBalVal (l.filter (fun a => !(a.he3Balance == "Error")))).chain'⟩

/-- The concrete balance rows of the C6 witness: one failed fetch and one
balance beyond 2^53 (18014398509481985 = 2^54 + 1). -/
def rankSample : List AgentBalance :=
  [⟨"agent1", "0x1", "100"⟩, ⟨"agent2", "0x2", "Error"⟩,
   ⟨"agent3", "0x3", "18014398509481985"⟩, ⟨"agent4", "0x4", "9"⟩]

/-- Witness for C6 on `rankSample`, plus the evaluated ranking itself. -/
theorem c6_rank_agents_witness :
    (List.Perm (rankAgentsByHe3 rankSample)
      (rankSample.filter (fun a => !(a.he3Balance == "Error"))) ∧
    List.Pairwise (fun a b => agentBalVal b ≤ agentBalVal a) (rankAgentsByHe3 rankSample) ∧
    List.Chain' (fun a b => agentBalVal b ≤ agentBalVal a) (rankAgentsByHe3 rankSample)) ∧
    rankAgentsByHe3 rankSample =
      [⟨"agent3", "0x3", "18014398509481985"⟩, ⟨"agent1", "0x1", "100"⟩,
       ⟨"agent4", "0x4", "9"⟩] :=
  ⟨c6_rank_agents rankSample (by decide), by decide⟩
